import Mathlib

/-!
Verification development for the per-folder metadata journal (`mdJournal`)
of the kbfs repository. The Go source in `md_journal.go` is shallowly
embedded: machine values (UIDs, verifying keys, branch IDs, MdIDs,
revisions, payloads) are Nat, the content store (the `mds/` directory)
is an association list from MdID to decoded metadata, the ordinal log
(the `md_journal/` directory managed by `mdIDJournal`) is a list of
(revision, MdID) pairs, and fallible operations return `Except`.
Stateful methods with a pointer receiver return a result paired with the
updated journal state; methods with a value receiver are also given in a
state-passing form so that frame properties can be stated.
-/

/-- MergeStatus of a metadata object: `Merged` means it belongs to the
trunk, `Unmerged` to a local branch. -/
inductive MergeStatus where
  | Merged
  | Unmerged
deriving DecidableEq, Repr

/-- The distinguished null branch ID (`NullBranchID` / `NULL_BID`). -/
def NullBranchID : Nat := 0

/-- Decoded bare root metadata (`BareRootMetadataV2` in the source).
Fields used by `md_journal.go`:
`revision` (RevisionNumber), `bid` (BID), `prevRoot` (GetPrevRoot),
`mergedStatus` (MergedStatus), `writerSig` (the writer metadata signature
info, set by SetWriterMetadataSigInfo).
The remaining fields are the abstract interface of the externally defined
metadata type, modelled from the spec:
`lastModUID`/`lastModKey` record the last modifier so that
`IsLastModifiedBy(uid, key)` is an equality check; `validSigned` is the
verdict of `IsValidAndSigned`; `writers`/`readers` are the device lists
consulted by the external `isWriterOrValidRekey` and `isReader` helpers;
`payload` stands for the encoded private data. -/
structure BareRootMetadata where
  revision : Nat
  bid : Nat
  prevRoot : Nat
  mergedStatus : MergeStatus
  writerSig : Nat
  lastModUID : Nat
  lastModKey : Nat
  validSigned : Bool
  writers : List Nat
  readers : List Nat
  payload : Nat
deriving DecidableEq, Repr

/-- A full `RootMetadata` as passed to `mdJournal.put`: the bare metadata
plus the one bit of `rmd.data` that `put` inspects, namely whether
`rmd.data.Changes.Info.BlockPointer` equals `zeroPtr`. -/
structure RootMetadata where
  bareMd : BareRootMetadata
  changesBlockPtrZero : Bool
deriving DecidableEq, Repr

/-- `ImmutableBareRootMetadata`: a bare RMD together with its MdID.
The `localTimestamp` field of the source (a file modification time) is
not modelled; no claim mentions it. -/
structure ImmutableBareRootMetadata where
  brmd : BareRootMetadata
  mdID : Nat
deriving DecidableEq, Repr

/-- `RootMetadataSigned`: the wire format produced for flushing, the
metadata plus a signature over its encoding. -/
structure RootMetadataSigned where
  md : BareRootMetadata
  sigInfo : Nat
deriving DecidableEq, Repr

/-- Errors surfaced by the journal. Distinct constructors stand for the
distinct error values constructed in the source; `conflict` is
`MDJournalConflictError`, `notFound` is an `os.IsNotExist` error,
`revisionMismatch` is the panic in `mdJournal.getRange`. -/
inductive JErr where
  | notFound
  | mdIDMismatch
  | lastModMismatch
  | notValidSigned
  | branchMismatchGet
  | unauthorized
  | conflict
  | statusBidMismatch
  | branchMismatchPut
  | invalidSuccessor
  | blockChanges
  | unmergedNullBid
  | emptyJournal
  | wrongMdID
  | codecMismatch
  | alreadyBranched
  | noMutableImpl
  | clearNullBid
  | appendGap
  | revisionMismatch
deriving DecidableEq, Repr

deriving instance DecidableEq for Except

/-- The content store: the decoded contents of the `mds/` directory,
keyed by MdID. -/
abbrev Store := List (Nat × BareRootMetadata)

/-- First-match lookup in the content store. -/
def storeLookup : Nat → Store → Option BareRootMetadata
  | _, [] => none
  | id, (i, m) :: rest => if id = i then some m else storeLookup id rest

/-- Removing a content file (`os.Remove(j.mdPath(id))`). -/
def storeRemove : Nat → Store → Store
  | _, [] => []
  | id, (i, m) :: rest =>
      if i = id then storeRemove id rest else (i, m) :: storeRemove id rest

/-- Injective encoding of a list, used inside the canonical encoding. -/
def encodeNatList (l : List Nat) : Nat := l.foldr Nat.pair 0

/-- Canonical encoding of a bare RMD (`j.codec.Encode(rmd)`). -/
def encodeRMD (m : BareRootMetadata) : Nat :=
  Nat.pair m.revision (Nat.pair m.bid (Nat.pair m.prevRoot
    (Nat.pair (match m.mergedStatus with | .Merged => 0 | .Unmerged => 1)
      (Nat.pair m.writerSig (Nat.pair m.lastModUID (Nat.pair m.lastModKey
        (Nat.pair (if m.validSigned then 1 else 0)
          (Nat.pair (encodeNatList m.writers)
            (Nat.pair (encodeNatList m.readers) m.payload)))))))))

/-- `crypto.MakeMdID(rmd)`: the content hash of the canonical encoding.
The spec states that two RMDs are equal iff their MdIDs match, so the
hash is modelled as an injective function; it is nonzero, since the zero
value `MdID{}` is reserved as the missing-MdID sentinel. -/
def makeMdID (m : BareRootMetadata) : Nat := encodeRMD m + 1

/-- The journal coordinator state: content store (`mds/` directory),
ordinal log (`j.j`, the `md_journal/` directory), and the two in-memory
fields `branchID` and `lastMdID` (zero encodes `MdID{}`). -/
structure mdJournal where
  store : Store
  j : List (Nat × Nat)
  branchID : Nat
  lastMdID : Nat
deriving DecidableEq, Repr

namespace mdIDJournal

/-- Modelled from the spec: the ordinal log `mdIDJournal` is not under
`src/`; per spec section 4.1, `append(R, id)` fails if the log is
non-empty and `R` is not the successor of the latest revision. -/
def append (r id : Nat) (log : List (Nat × Nat)) :
    Except JErr (List (Nat × Nat)) :=
  match log.getLast? with
  | none => .ok (log ++ [(r, id)])
  | some (lr, _) =>
      if r = lr + 1 then .ok (log ++ [(r, id)]) else .error .appendGap

/-- Modelled from the spec: `replaceHead(id)` replaces the MdID at the
current latest revision, which stays unchanged. -/
def replaceHead (id : Nat) (log : List (Nat × Nat)) :
    Except JErr (List (Nat × Nat)) :=
  match log.getLast? with
  | none => .error .emptyJournal
  | some (lr, _) => .ok (log.dropLast ++ [(lr, id)])

/-- Modelled from the spec: `getEarliest` of the ordinal log returns the
earliest MdID, or the zero MdID when the log is empty. -/
def getEarliest (log : List (Nat × Nat)) : Nat :=
  (log.head?.map Prod.snd).getD 0

/-- Modelled from the spec: the latest MdID, or zero when empty. -/
def getLatest (log : List (Nat × Nat)) : Nat :=
  (log.getLast?.map Prod.snd).getD 0

/-- Modelled from the spec: the earliest revision (0 when empty). -/
def readEarliestRevision (log : List (Nat × Nat)) : Nat :=
  (log.head?.map Prod.fst).getD 0

/-- Modelled from the spec: the latest revision (0 when empty). -/
def readLatestRevision (log : List (Nat × Nat)) : Nat :=
  (log.getLast?.map Prod.fst).getD 0

/-- Modelled from the spec: `getRange(start, stop)` returns the ids of
the entries with revision in `[start, stop]`, together with the real
start `max(earliest, start)`. -/
def getRange (start stop : Nat) (log : List (Nat × Nat)) :
    Nat × List Nat :=
  (max (readEarliestRevision log) start,
    (log.filter (fun p => start ≤ p.1 && p.1 ≤ stop)).map Prod.snd)

/-- Modelled from the spec: `removeEarliest` drops the earliest entry
and reports whether the log is now empty. -/
def removeEarliest (log : List (Nat × Nat)) :
    Except JErr (List (Nat × Nat) × Bool) :=
  match log with
  | [] => .error .emptyJournal
  | _ :: t => .ok (t, t.isEmpty)

/-- Modelled from the spec: `length()`. -/
def length (log : List (Nat × Nat)) : Nat := log.length

/-- Modelled from the spec: `end()` is one past the latest revision, or
0 for an empty log. The source method is named `end`, a Lean keyword. -/
def endRevision (log : List (Nat × Nat)) : Nat :=
  match log.getLast? with
  | none => 0
  | some (lr, _) => lr + 1

end mdIDJournal

namespace mdJournal

/-- `mdJournal.getMD`: reads the content file for `id`, checks that the
recomputed MdID matches `id`, that the RMD was last modified by the
current device, that it is valid and signed, and, when `verifyBranchID`
is set, that its branch ID equals the in-memory branch ID. -/
def getMD (uid key branchID : Nat) (verifyBranchID : Bool) (id : Nat)
    (store : Store) : Except JErr BareRootMetadata :=
  match storeLookup id store with
  | none => .error .notFound
  | some rmd =>
    if makeMdID rmd ≠ id then .error .mdIDMismatch
    else if ¬ (rmd.lastModUID = uid ∧ rmd.lastModKey = key) then
      .error .lastModMismatch
    else if ¬ rmd.validSigned then .error .notValidSigned
    else if verifyBranchID ∧ rmd.bid ≠ branchID then
      .error .branchMismatchGet
    else .ok rmd

/-- `mdJournal.putMD`: validates the RMD, computes its MdID, and writes
the content file only when `getMD` reports not-found. When the entry
already exists the source returns `MdID{}, nil`, i.e. the zero MdID. -/
def putMD (uid key branchID : Nat) (rmd : BareRootMetadata)
    (store : Store) : Except JErr (Nat × Store) :=
  if ¬ rmd.validSigned then .error .notValidSigned
  else if ¬ (rmd.lastModUID = uid ∧ rmd.lastModKey = key) then
    .error .lastModMismatch
  else
    let id := makeMdID rmd
    match getMD uid key branchID true id store with
    | .error .notFound => .ok (id, (id, rmd) :: store)
    | .error e => .error e
    | .ok _ => .ok (0, store)

/-- `mdJournal.getEarliest`: the earliest entry as an
`ImmutableBareRootMetadata`, or `none` when the ordinal log reports the
zero MdID. -/
def getEarliest (uid key : Nat) (verifyBranchID : Bool) (s : mdJournal) :
    Except JErr (Option ImmutableBareRootMetadata) :=
  let earliestID := mdIDJournal.getEarliest s.j
  if earliestID = 0 then .ok none
  else
    match getMD uid key s.branchID verifyBranchID earliestID s.store with
    | .error e => .error e
    | .ok rmd => .ok (some ⟨rmd, earliestID⟩)

/-- `mdJournal.getLatest`: the latest entry, or `none` when the ordinal
log reports the zero MdID. -/
def getLatest (uid key : Nat) (verifyBranchID : Bool) (s : mdJournal) :
    Except JErr (Option ImmutableBareRootMetadata) :=
  let latestID := mdIDJournal.getLatest s.j
  if latestID = 0 then .ok none
  else
    match getMD uid key s.branchID verifyBranchID latestID s.store with
    | .error e => .error e
    | .ok rmd => .ok (some ⟨rmd, latestID⟩)

/-- Modelled from the spec: the external `isReader` helper, which checks
that the current device may read the folder described by the head. -/
def isReader (uid : Nat) (rmd : BareRootMetadata) : Bool :=
  uid ∈ rmd.readers

/-- Modelled from the spec: the external `isWriterOrValidRekey` helper;
the current device must be a writer (the rekey path is folded into the
writer list of the model). -/
def isWriterOrValidRekey (uid : Nat) (head _next : BareRootMetadata) :
    Bool :=
  uid ∈ head.writers

/-- Modelled from the spec: `CheckValidSuccessorForServer(headID, next)`
enforces the server successor rules: the revision must be the successor
of the head revision and `prevRoot` must point at the head MdID. -/
def checkValidSuccessorForServer (headID : Nat)
    (head next : BareRootMetadata) : Bool :=
  next.revision = head.revision + 1 && next.prevRoot = headID

/-- `mdJournal.checkGetParams`: reads the head and checks the reader
permission when the journal is non-empty. -/
def checkGetParams (uid key : Nat) (s : mdJournal) :
    Except JErr (Option ImmutableBareRootMetadata) :=
  match getLatest uid key true s with
  | .error e => .error e
  | .ok none => .ok none
  | .ok (some head) =>
      if isReader uid head.brmd then .ok (some head) else .error .unauthorized

/-- Modelled from the spec: the external `encryptMDPrivateData` encrypts
the private payload of an in-memory `RootMetadata` and produces the bare
RMD handed to `putMD`; the metadata fields are preserved and the payload
is transformed by the encryption oracle `enc`. -/
def encryptMDPrivateData (enc : Nat → Nat) (rmd : RootMetadata) :
    BareRootMetadata :=
  { rmd.bareMd with payload := enc rmd.bareMd.payload }

/-- `rmd.SetBranchID(bid)`. -/
def setBranchID (rmd : RootMetadata) (bid : Nat) : RootMetadata :=
  { rmd with bareMd := { rmd.bareMd with bid := bid } }

/-- `rmd.SetPrevRoot(id)`. -/
def setPrevRoot (rmd : RootMetadata) (id : Nat) : RootMetadata :=
  { rmd with bareMd := { rmd.bareMd with prevRoot := id } }

/-- The Unmerged-case normalization block of `mdJournal.put`
(lines 711 to 753 of the source): given the head returned by `getLatest`
it either rejects the put, adopts the branch ID of the RMD
(case Unmerged-3), rewrites the branch ID and previous root of the RMD
(case Unmerged-1), or leaves the RMD alone. It returns the possibly
modified RMD together with the working in-memory branch ID, which for
case Unmerged-3 is the newly adopted one (the source reverts the
adoption when a later step fails, so the in-memory field itself is only
committed on success). -/
def putNormalize (head : Option ImmutableBareRootMetadata)
    (rmd : RootMetadata) (s : mdJournal) :
    Except JErr (RootMetadata × Nat) :=
  if rmd.bareMd.mergedStatus = MergeStatus.Unmerged then
    let lastMdID := match head with
      | none => s.lastMdID
      | some h => h.mdID
    if rmd.bareMd.bid = NullBranchID ∧ s.branchID = NullBranchID then
      .error .unmergedNullBid
    else if head = none ∧ s.branchID = NullBranchID then
      .ok (rmd, rmd.bareMd.bid)
    else if rmd.bareMd.bid = NullBranchID then
      .ok (setPrevRoot (setBranchID rmd s.branchID) lastMdID, s.branchID)
    else
      .ok (rmd, s.branchID)
  else
    .ok (rmd, s.branchID)

/-- The permission-and-consistency block of `mdJournal.put`
(lines 775 to 793 of the source): when the head exists, the caller must
be a writer or a valid rekeyer, and an RMD whose revision differs from
the head revision must be a valid successor of the head. -/
def headConsistencyCheck (uid : Nat)
    (head : Option ImmutableBareRootMetadata) (rmd : BareRootMetadata) :
    Except JErr Unit :=
  match head with
  | none => .ok ()
  | some h =>
    if ¬ isWriterOrValidRekey uid h.brmd rmd then .error .unauthorized
    else if rmd.revision ≠ h.brmd.revision then
      if ¬ checkValidSuccessorForServer h.mdID h.brmd rmd then
        .error .invalidSuccessor
      else .ok ()
    else .ok ()

/-- `mdJournal.put`: verifies and stores the given RootMetadata in the
journal. `sign` and `enc` are the injected signer and encryptor,
`shouldEmbed` is the verdict of `bsplit.ShouldEmbedBlockChanges` for
this RMD. The state component of the result is the journal after the
call; on the error paths it reflects that the deferred revert restores
the in-memory branch ID while a content file written by `putMD` stays
on disk. -/
def put (uid key : Nat) (sign enc : Nat → Nat) (shouldEmbed : Bool)
    (rmd0 : RootMetadata) (s : mdJournal) :
    Except JErr Nat × mdJournal :=
  match getLatest uid key true s with
  | .error e => (.error e, s)
  | .ok head =>
    match putNormalize head rmd0 s with
    | .error e => (.error e, s)
    | .ok (rmd, bid) =>
      if ¬ ((rmd0.bareMd.mergedStatus = MergeStatus.Merged) ↔
            (rmd.bareMd.bid = NullBranchID)) then
        (.error .statusBidMismatch, s)
      else if rmd0.bareMd.mergedStatus = MergeStatus.Merged ∧
          bid ≠ NullBranchID then
        (.error .conflict, s)
      else if rmd.bareMd.bid ≠ bid then
        (.error .branchMismatchPut, s)
      else
        match headConsistencyCheck uid head rmd.bareMd with
        | .error e => (.error e, s)
        | .ok () =>
          if rmd.changesBlockPtrZero ∧ ¬ shouldEmbed then
            (.error .blockChanges, s)
          else
            match putMD uid key bid (encryptMDPrivateData enc rmd) s.store with
            | .error e => (.error e, s)
            | .ok (id, store') =>
              match head with
              | some h =>
                if rmd.bareMd.revision = h.brmd.revision then
                  match mdIDJournal.replaceHead id s.j with
                  | .error e => (.error e, { s with store := store' })
                  | .ok log' =>
                      (.ok id, ⟨store', log', bid, 0⟩)
                else
                  match mdIDJournal.append
                      (encryptMDPrivateData enc rmd).revision id s.j with
                  | .error e => (.error e, { s with store := store' })
                  | .ok log' =>
                      (.ok id, ⟨store', log', bid, 0⟩)
              | none =>
                match mdIDJournal.append
                    (encryptMDPrivateData enc rmd).revision id s.j with
                | .error e => (.error e, { s with store := store' })
                | .ok log' =>
                    (.ok id, ⟨store', log', bid, 0⟩)

/-- Modelled from the spec: `GetSerializedWriterMetadata` encodes the
writer portion of the metadata, which is then signed by the injected
signer during branch conversion. -/
def getSerializedWriterMetadata (m : BareRootMetadata) : Nat :=
  Nat.pair m.revision (Nat.pair m.bid m.payload)

/-- The per-entry mutation of `mdJournal.convertToBranch` (lines 402 to
431 of the source): set the decoded entry unmerged on the new branch,
re-sign the writer metadata, and redirect `prevRoot` to the previous
rewritten entry for every entry after the first (the re-signing happens
before the `prevRoot` update, as in the source). -/
def rewriteEntry (newBID : Nat) (sign : Nat → Nat) (notFirst : Bool)
    (prevID : Nat) (m : BareRootMetadata) : BareRootMetadata :=
  let brmd1 := { m with mergedStatus := MergeStatus.Unmerged,
                        bid := newBID }
  let brmd2 := { brmd1 with
    writerSig := sign (getSerializedWriterMetadata brmd1) }
  if notFirst then { brmd2 with prevRoot := prevID } else brmd2

/-- The per-entry loop of `mdJournal.convertToBranch` (lines 396 to 454
of the source): for each old MdID, decode the entry, rewrite it with
`rewriteEntry`, store the rewritten entry, and append it to the scratch
ordinal log. The eviction of stale entries from the external merged-MD
cache has no effect on the journal state and is not modelled. -/
def convertLoop (uid key branchID newBID : Nat) (sign : Nat → Nat) :
    List Nat → Bool → Nat → List (Nat × Nat) → Store →
    Except JErr (Store × List (Nat × Nat))
  | [], _, _, tempLog, store => .ok (store, tempLog)
  | id :: rest, notFirst, prevID, tempLog, store =>
    match getMD uid key branchID true id store with
    | .error e => .error e
    | .ok ibrmd =>
      let brmd3 := rewriteEntry newBID sign notFirst prevID ibrmd
      match putMD uid key branchID brmd3 store with
      | .error e => .error e
      | .ok (newID, store') =>
        match mdIDJournal.append brmd3.revision newID tempLog with
        | .error e => .error e
        | .ok tempLog' =>
            convertLoop uid key branchID newBID sign rest true newID
              tempLog' store'

/-- `mdJournal.convertToBranch`: rewrites the whole journal onto a fresh
branch. `newBID` is the value produced by `crypto.MakeRandomBranchID`.
On success the scratch log replaces the ordinal log, the in-memory
branch ID becomes `newBID`, and the deferred cleanup removes the old
content files; on failure the deferred cleanup removes the new content
files instead, so the state is unchanged. -/
def convertToBranch (uid key newBID : Nat) (sign : Nat → Nat)
    (s : mdJournal) : Except JErr Nat × mdJournal :=
  if s.branchID ≠ NullBranchID then (.error .alreadyBranched, s)
  else
    let earliestRevision := mdIDJournal.readEarliestRevision s.j
    let latestRevision := mdIDJournal.readLatestRevision s.j
    let allMdIDs := (mdIDJournal.getRange earliestRevision latestRevision s.j).2
    match convertLoop uid key s.branchID newBID sign allMdIDs false 0 []
        s.store with
    | .error e => (.error e, s)
    | .ok (store', tempLog) =>
        let store'' := allMdIDs.foldl (fun st id => storeRemove id st) store'
        (.ok newBID, ⟨store'', tempLog, newBID, s.lastMdID⟩)

/-- Modelled from the spec: `signMD` signs the canonical encoding of the
metadata with the injected signer, producing the wire format. -/
def signMD (sign : Nat → Nat) (m : BareRootMetadata) :
    RootMetadataSigned :=
  ⟨m, sign (encodeRMD m)⟩

/-- `mdJournal.getNextEntryToFlush`: the earliest entry, re-signed, when
its revision is below `endR`; `none` otherwise. The result is paired
with the journal state (the method has a value receiver). -/
def getNextEntryToFlush (uid key endR : Nat) (sign : Nat → Nat)
    (s : mdJournal) :
    Except JErr (Option (Nat × RootMetadataSigned)) × mdJournal :=
  match getEarliest uid key true s with
  | .error e => (.error e, s)
  | .ok none => (.ok none, s)
  | .ok (some rmd) =>
      if rmd.brmd.revision ≥ endR then (.ok none, s)
      else (.ok (some (rmd.mdID, signMD sign rmd.brmd)), s)

/-- `mdJournal.removeFlushedEntry`: checks that `mdID` and `rmds` match
the earliest entry, removes it from the ordinal log, records `lastMdID`
when the journal becomes empty, and removes the content file. The codec
equality check `CodecEqual(j.codec, ...)` is structural equality, which
is consistent with the canonical encoding. All error paths leave the
state unchanged, so the errorful result carries no state. -/
def removeFlushedEntry (uid key mdID : Nat) (rmds : RootMetadataSigned)
    (s : mdJournal) : Except JErr mdJournal :=
  match getEarliest uid key true s with
  | .error e => .error e
  | .ok none => .error .emptyJournal
  | .ok (some rmd) =>
    if mdID ≠ rmd.mdID then .error .wrongMdID
    else if ¬ (rmd.brmd = rmds.md) then .error .codecMismatch
    else
      match mdIDJournal.removeEarliest s.j with
      | .error e => .error e
      | .ok (log', empty) =>
          .ok ⟨storeRemove mdID s.store, log',
               s.branchID, if empty then mdID else s.lastMdID⟩

/-- `mdJournal.getHead` (value receiver, paired with the state). -/
def getHead (uid key : Nat) (s : mdJournal) :
    Except JErr (Option ImmutableBareRootMetadata) × mdJournal :=
  match checkGetParams uid key s with
  | .error e => (.error e, s)
  | .ok head => (.ok head, s)

/-- The per-entry loop of `mdJournal.getRange`: reads each id and checks
that its revision is the expected one; the source panics on a mismatch,
modelled as the error `revisionMismatch`. -/
def getRangeLoop (uid key branchID : Nat) (store : Store) :
    Nat → List Nat → Except JErr (List ImmutableBareRootMetadata)
  | _, [] => .ok []
  | expected, id :: rest =>
    match getMD uid key branchID true id store with
    | .error e => .error e
    | .ok rmd =>
      if expected ≠ rmd.revision then .error .revisionMismatch
      else
        match getRangeLoop uid key branchID store (expected + 1) rest with
        | .error e => .error e
        | .ok rmds => .ok (⟨rmd, id⟩ :: rmds)

/-- `mdJournal.getRange` (value receiver, paired with the state). -/
def getRange (uid key start stop : Nat) (s : mdJournal) :
    Except JErr (List ImmutableBareRootMetadata) × mdJournal :=
  match checkGetParams uid key s with
  | .error e => (.error e, s)
  | .ok _ =>
    let r := mdIDJournal.getRange start stop s.j
    match getRangeLoop uid key s.branchID s.store r.1 r.2 with
    | .error e => (.error e, s)
    | .ok rmds => (.ok rmds, s)

/-- `mdJournal.length` (value receiver, paired with the state). -/
def length (s : mdJournal) : Nat × mdJournal :=
  (mdIDJournal.length s.j, s)

/-- `mdJournal.end` (value receiver, paired with the state). -/
def endRevision (s : mdJournal) : Nat × mdJournal :=
  (mdIDJournal.endRevision s.j, s)

/-- `mdJournal.getBranchID` (value receiver, paired with the state). -/
def getBranchID (s : mdJournal) : Nat × mdJournal :=
  (s.branchID, s)

/-- `mdJournal.clear(bid)`: rejects the null branch ID, no-ops when the
head is missing or on a different branch, and otherwise resets the
in-memory branch ID, truncates the ordinal log and removes the content
files of the cleared range. `truncOK` is the outcome of the filesystem
truncation performed by `j.j.clear()` (the ordinal log is not under
`src/`; per the spec its filesystem operations may fail with I/O
errors). The source handles a truncation failure with `return nil`
(line 885), so on that path the call reports success with the branch ID
already reset and the log untouched. -/
def clear (uid key bid : Nat) (truncOK : Bool) (s : mdJournal) :
    Except JErr Unit × mdJournal :=
  if bid = NullBranchID then (.error .clearNullBid, s)
  else
    match getHead uid key s with
    | (.error e, _) => (.error e, s)
    | (.ok none, _) => (.ok (), s)
    | (.ok (some head), _) =>
      if head.brmd.bid ≠ bid then (.ok (), s)
      else
        let earliestRevision := mdIDJournal.readEarliestRevision s.j
        let latestRevision := mdIDJournal.readLatestRevision s.j
        let allMdIDs :=
          (mdIDJournal.getRange earliestRevision latestRevision s.j).2
        let s1 := { s with branchID := NullBranchID }
        if ¬ truncOK then (.ok (), s1)
        else
          let store' := allMdIDs.foldl (fun st id => storeRemove id st) s1.store
          (.ok (), { s1 with j := [], store := store' })

end mdJournal

/-! ## Well-formedness predicates (spec section 3, Invariants) -/

/-- One ordinal entry `(R, id)` is well formed for the current device
and branch: the content file exists, is content-addressed, was last
modified by the current device, is validly signed, sits on the journal
branch and carries the ordinal revision. -/
def entryWF (uid key branchID : Nat) (store : Store) (p : Nat × Nat) :
    Bool :=
  match storeLookup p.2 store with
  | none => false
  | some m =>
      decide (makeMdID m = p.2) && decide (m.lastModUID = uid) &&
      decide (m.lastModKey = key) && m.validSigned &&
      decide (m.bid = branchID) && decide (m.revision = p.1)

/-- Every ordinal entry is well formed. -/
def logWF (uid key branchID : Nat) (store : Store)
    (log : List (Nat × Nat)) : Bool :=
  log.all (entryWF uid key branchID store)

/-- The revisions of the entries are consecutive starting at `r`. -/
def consecFrom : Nat → List (Nat × Nat) → Bool
  | _, [] => true
  | r, (r', _) :: t => decide (r' = r) && consecFrom (r + 1) t

/-- The ordinal log has gap-free, strictly increasing revisions
(spec section 4.1, Ordering). -/
def logConsec (log : List (Nat × Nat)) : Bool :=
  match log with
  | [] => true
  | (r, _) :: _ => consecFrom r log

/-- Every content-store entry is stored under its own hash
(spec invariant 2 restricted to the store). -/
def storeCA (store : Store) : Bool :=
  store.all (fun p => decide (makeMdID p.2 = p.1))

/-- Every content-store entry carries the given branch ID. -/
def storeOnBranch (bid : Nat) (store : Store) : Bool :=
  store.all (fun p => decide (p.2.bid = bid))

/-- The prev-root chain property (spec invariant 4): each entry after
the first points at the MdID of the entry before it; when `prev` is
`some p`, the first entry must point at `p`. -/
def chainFrom (store : Store) : Option Nat → List (Nat × Nat) → Bool
  | _, [] => true
  | none, (_, id) :: t => chainFrom store (some id) t
  | some p, (_, id) :: t =>
    (match storeLookup id store with
     | none => false
     | some m => decide (m.prevRoot = p)) &&
    chainFrom store (some id) t

/-- Every log entry resolves to a stored RMD with the given branch ID
and merge status. -/
def logOnBranch (bid : Nat) (status : MergeStatus) (store : Store)
    (log : List (Nat × Nat)) : Bool :=
  log.all (fun p =>
    match storeLookup p.2 store with
    | none => false
    | some m => decide (m.bid = bid) && decide (m.mergedStatus = status))

/-! ## Basic lemmas about the store and the hash -/

theorem storeLookup_mem {id : Nat} {st : Store} {m : BareRootMetadata}
    (h : storeLookup id st = some m) : (id, m) ∈ st := by
  induction st with
  | nil => simp [storeLookup] at h
  | cons a rest ih =>
    obtain ⟨i, v⟩ := a
    by_cases hc : id = i
    · subst hc
      simp [storeLookup] at h
      simp [h]
    · simp [storeLookup, hc] at h
      exact List.mem_cons_of_mem _ (ih h)

theorem storeLookup_cons_ne {id i : Nat} {m : BareRootMetadata}
    {st : Store} (h : id ≠ i) :
    storeLookup id ((i, m) :: st) = storeLookup id st := by
  simp [storeLookup, h]

theorem storeLookup_cons_self {i : Nat} {m : BareRootMetadata}
    {st : Store} : storeLookup i ((i, m) :: st) = some m := by
  simp [storeLookup]

theorem storeRemove_lookup_ne {id rid : Nat} {st : Store} (h : id ≠ rid) :
    storeLookup id (storeRemove rid st) = storeLookup id st := by
  induction st with
  | nil => rfl
  | cons a rest ih =>
    obtain ⟨i, m⟩ := a
    by_cases hc : i = rid
    · subst hc
      have : id ≠ i := h
      simp [storeRemove, storeLookup_cons_ne this, ih]
    · by_cases hd : id = i
      · subst hd
        simp [storeRemove, hc, storeLookup_cons_self]
      · simp [storeRemove, hc, storeLookup_cons_ne hd, ih]

theorem foldl_storeRemove_lookup {id : Nat} {ids : List Nat} :
    ∀ {st : Store}, (∀ rid ∈ ids, id ≠ rid) →
    storeLookup id (ids.foldl (fun st i => storeRemove i st) st) =
      storeLookup id st := by
  induction ids with
  | nil => intro st _; rfl
  | cons a rest ih =>
    intro st h
    have ha : id ≠ a := h a (List.mem_cons_self a rest)
    have hrest : ∀ rid ∈ rest, id ≠ rid := fun rid hr =>
      h rid (List.mem_cons_of_mem a hr)
    calc storeLookup id
          ((a :: rest).foldl (fun st i => storeRemove i st) st)
        = storeLookup id
          (rest.foldl (fun st i => storeRemove i st) (storeRemove a st)) := by
          simp [List.foldl_cons]
      _ = storeLookup id (storeRemove a st) := ih hrest
      _ = storeLookup id st := storeRemove_lookup_ne ha

theorem makeMdID_ne_zero (m : BareRootMetadata) : makeMdID m ≠ 0 :=
  Nat.succ_ne_zero _

/-- The content hash determines the revision and the branch ID: the
encoding pairs them at the outermost positions. -/
theorem makeMdID_inj_rev_bid {m1 m2 : BareRootMetadata}
    (h : makeMdID m1 = makeMdID m2) :
    m1.revision = m2.revision ∧ m1.bid = m2.bid := by
  have h1 : encodeRMD m1 = encodeRMD m2 := Nat.succ_injective h
  unfold encodeRMD at h1
  have h2 := Nat.pair_eq_pair.mp h1
  have h3 := Nat.pair_eq_pair.mp h2.2
  exact ⟨h2.1, h3.1⟩

/-! ## Equation lemmas for getMD and putMD -/

theorem getMD_ok_of {uid key branchID : Nat} {verify : Bool} {id : Nat}
    {st : Store} {m : BareRootMetadata}
    (h : storeLookup id st = some m) (h1 : makeMdID m = id)
    (h2 : m.lastModUID = uid) (h3 : m.lastModKey = key)
    (h4 : m.validSigned = true) (h5 : m.bid = branchID) :
    mdJournal.getMD uid key branchID verify id st = .ok m := by
  simp [mdJournal.getMD, h, h1, h2, h3, h4, h5]

theorem getMD_ok_inv {uid key branchID : Nat} {verify : Bool} {id : Nat}
    {st : Store} {m : BareRootMetadata}
    (h : mdJournal.getMD uid key branchID verify id st = .ok m) :
    storeLookup id st = some m ∧ makeMdID m = id ∧ m.lastModUID = uid ∧
      m.lastModKey = key ∧ m.validSigned = true ∧
      (verify = true → m.bid = branchID) := by
  unfold mdJournal.getMD at h
  rcases hl : storeLookup id st with _ | m' <;> rw [hl] at h
  · simp at h
  · dsimp only at h
    split_ifs at h with hid hmod hv hb
    injection h with h'
    subst h'
    refine ⟨rfl, not_not.mp hid, hmod.1, hmod.2, hv, ?_⟩
    intro hverify
    by_contra hbid
    exact hb ⟨hverify, hbid⟩

theorem putMD_fresh {uid key branchID : Nat} {rmd : BareRootMetadata}
    {st : Store} (h4 : rmd.validSigned = true)
    (h2 : rmd.lastModUID = uid) (h3 : rmd.lastModKey = key)
    (hfresh : storeLookup (makeMdID rmd) st = none) :
    mdJournal.putMD uid key branchID rmd st =
      .ok (makeMdID rmd, (makeMdID rmd, rmd) :: st) := by
  simp [mdJournal.putMD, h4, h2, h3, mdJournal.getMD, hfresh]

/-! ## Characterization lemmas for the ordinal log and the accessors -/

theorem append_ok {r i : Nat} {log log2 : List (Nat × Nat)}
    (h : mdIDJournal.append r i log = .ok log2) :
    log2 = log ++ [(r, i)] := by
  unfold mdIDJournal.append at h
  rcases hl : log.getLast? with _ | p <;> rw [hl] at h
  · injection h with h'; exact h'.symm
  · obtain ⟨lr, li⟩ := p
    dsimp only at h
    split_ifs at h
    injection h with h'; exact h'.symm

theorem replaceHead_ok {i : Nat} {log log2 : List (Nat × Nat)}
    (h : mdIDJournal.replaceHead i log = .ok log2) :
    ∃ lr li, log.getLast? = some (lr, li) ∧
      log2 = log.dropLast ++ [(lr, i)] := by
  unfold mdIDJournal.replaceHead at h
  rcases hl : log.getLast? with _ | p <;> rw [hl] at h
  · simp at h
  · obtain ⟨lr, li⟩ := p
    dsimp only at h
    injection h with h'
    exact ⟨lr, li, rfl, h'.symm⟩

theorem getLatest_ok_none {uid key : Nat} {v : Bool} {s : mdJournal}
    (h : mdJournal.getLatest uid key v s = .ok none) :
    mdIDJournal.getLatest s.j = 0 := by
  unfold mdJournal.getLatest at h
  by_cases h0 : mdIDJournal.getLatest s.j = 0
  · exact h0
  · rw [if_neg h0] at h
    rcases hg : mdJournal.getMD uid key s.branchID v
        (mdIDJournal.getLatest s.j) s.store with e | rmd <;> rw [hg] at h <;>
      simp at h

theorem getLatest_nil {uid key : Nat} {v : Bool} {s : mdJournal}
    (h : s.j = []) : mdJournal.getLatest uid key v s = .ok none := by
  unfold mdJournal.getLatest mdIDJournal.getLatest
  rw [h]
  rfl

theorem getLatest_ok_some {uid key : Nat} {v : Bool} {s : mdJournal}
    {h0 : ImmutableBareRootMetadata}
    (h : mdJournal.getLatest uid key v s = .ok (some h0)) :
    mdIDJournal.getLatest s.j = h0.mdID ∧
      mdJournal.getMD uid key s.branchID v h0.mdID s.store = .ok h0.brmd ∧
      s.j ≠ [] := by
  unfold mdJournal.getLatest at h
  by_cases hz : mdIDJournal.getLatest s.j = 0
  · rw [if_pos hz] at h; simp at h
  · rw [if_neg hz] at h
    rcases hg : mdJournal.getMD uid key s.branchID v
        (mdIDJournal.getLatest s.j) s.store with e | rmd <;> rw [hg] at h
    · simp at h
    · simp only [Except.ok.injEq, Option.some.injEq] at h
      have hj : s.j ≠ [] := by
        intro hnil
        apply hz
        unfold mdIDJournal.getLatest
        rw [hnil]
        rfl
      subst h
      exact ⟨rfl, hg, hj⟩

theorem getEarliest_ok_some {uid key : Nat} {v : Bool} {s : mdJournal}
    {e0 : ImmutableBareRootMetadata}
    (h : mdJournal.getEarliest uid key v s = .ok (some e0)) :
    mdIDJournal.getEarliest s.j = e0.mdID ∧
      mdJournal.getMD uid key s.branchID v e0.mdID s.store = .ok e0.brmd ∧
      s.j ≠ [] := by
  unfold mdJournal.getEarliest at h
  by_cases hz : mdIDJournal.getEarliest s.j = 0
  · rw [if_pos hz] at h; simp at h
  · rw [if_neg hz] at h
    rcases hg : mdJournal.getMD uid key s.branchID v
        (mdIDJournal.getEarliest s.j) s.store with e | rmd <;> rw [hg] at h
    · simp at h
    · simp only [Except.ok.injEq, Option.some.injEq] at h
      have hj : s.j ≠ [] := by
        intro hnil
        apply hz
        unfold mdIDJournal.getEarliest
        rw [hnil]
        rfl
      subst h
      exact ⟨rfl, hg, hj⟩

/-- If every ordinal entry has a nonzero MdID and the log is non-empty,
the latest reported MdID is nonzero. -/
theorem latest_ne_zero {s : mdJournal}
    (hnz : (s.j.all fun p => decide (p.2 ≠ 0)) = true) (hne : s.j ≠ []) :
    mdIDJournal.getLatest s.j ≠ 0 := by
  unfold mdIDJournal.getLatest
  rcases hl : s.j.getLast? with _ | p
  · exact absurd (List.getLast?_eq_none_iff.mp hl) hne
  · have hp : p ∈ s.j := List.mem_of_mem_getLast? hl
    have := List.all_eq_true.mp hnz p hp
    simpa using this

/-- A putNormalize success preserves the revision and the block-change
flag of the RMD: the Unmerged-case block only rewrites the branch ID and
the previous root. -/
theorem putNormalize_preserves {head : Option ImmutableBareRootMetadata}
    {rmd0 rmd1 : RootMetadata} {s : mdJournal} {b : Nat}
    (h : mdJournal.putNormalize head rmd0 s = .ok (rmd1, b)) :
    rmd1.bareMd.revision = rmd0.bareMd.revision ∧
      rmd1.changesBlockPtrZero = rmd0.changesBlockPtrZero := by
  unfold mdJournal.putNormalize at h
  split_ifs at h <;>
    (injection h with h'
     have h1 := congrArg Prod.fst h'
     dsimp only at h1
     subst h1
     exact ⟨rfl, rfl⟩)

/-! ## Concrete example values for witnesses -/

/-- A concrete bare RMD whose integrity checks pass for the device with
UID 0 and verifying key 0. -/
def exRMD (rev bid prevRoot : Nat) (st : MergeStatus) : BareRootMetadata :=
  { revision := rev, bid := bid, prevRoot := prevRoot, mergedStatus := st,
    writerSig := 0, lastModUID := 0, lastModKey := 0, validSigned := true,
    writers := [0], readers := [0], payload := 0 }

/-- A concrete unmerged RMD on branch 7 at revision 5. -/
def exRMDBranch : BareRootMetadata := exRMD 5 7 0 MergeStatus.Unmerged

/-- A concrete journal on branch 7 holding the single entry
`exRMDBranch`; it satisfies all the journal invariants. -/
def exBranched : mdJournal :=
  ⟨[(makeMdID exRMDBranch, exRMDBranch)], [(5, makeMdID exRMDBranch)], 7, 0⟩

/-- A concrete empty journal on branch 3. -/
def exEmptyBranched : mdJournal := ⟨[], [], 3, 0⟩

/-- A concrete empty journal on the null branch. -/
def exEmpty : mdJournal := ⟨[], [], 0, 0⟩

/-! ## Claims -/

/-- C6: for every journal whose branchID is not NULL_BID,
`convertToBranch` fails and does not change the journal: the
re-entrancy guard at the top of the function returns before any state
is touched. -/
theorem convertToBranch_not_reentrant (uid key newBID : Nat)
    (sign : Nat → Nat) (s : mdJournal) (h : s.branchID ≠ NullBranchID) :
    mdJournal.convertToBranch uid key newBID sign s =
      (.error .alreadyBranched, s) := by
  unfold mdJournal.convertToBranch
  rw [if_pos h]

/-- Witness for C6 at a concrete branched journal. -/
theorem convertToBranch_not_reentrant_witness :
    exBranched.branchID ≠ NullBranchID ∧
    mdJournal.convertToBranch 0 0 11 (fun n => n) exBranched =
      (.error .alreadyBranched, exBranched) :=
  ⟨by decide,
   convertToBranch_not_reentrant 0 0 11 (fun n => n) exBranched (by decide)⟩

/-- A concrete valid merged RMD for the putMD idempotence claim. -/
def exRMDMerged : BareRootMetadata := exRMD 1 0 0 MergeStatus.Merged

/-- C2 (code evaluation at the failing input): calling `putMD` twice
with the identical valid RMD does not rewrite the content file, but the
second call returns the zero MdID `MdID{}` (source line 247,
`return MdID{}, nil`) instead of the MdID returned by the first call,
which is nonzero. -/
theorem putMD_twice_second_id_zero :
    mdJournal.putMD 0 0 0 exRMDMerged [] =
      .ok (makeMdID exRMDMerged, [(makeMdID exRMDMerged, exRMDMerged)]) ∧
    mdJournal.putMD 0 0 0 exRMDMerged
        [(makeMdID exRMDMerged, exRMDMerged)] =
      .ok (0, [(makeMdID exRMDMerged, exRMDMerged)]) ∧
    makeMdID exRMDMerged ≠ 0 := by
  refine ⟨by decide, by decide, makeMdID_ne_zero _⟩

/-- C9 (code evaluation at the failing input): on a branched non-empty
journal, `clear` with the matching branch ID reports success even when
the ordinal-log truncation fails with an I/O error, because the source
returns `nil` instead of the error (line 885). The branch ID has
already been reset, and the log is left untruncated. -/
theorem clear_swallows_truncation_error :
    mdJournal.clear 0 0 7 false exBranched =
      (.ok (), { exBranched with branchID := NullBranchID }) := by
  decide

/-- C10: the read operations `getHead`, `getRange`,
`getNextEntryToFlush`, `length`, `end` and `getBranchID` leave the
journal state (content store, ordinal log, in-memory branchID and
lastMdID) unchanged, whether they succeed or fail. -/
theorem read_ops_leave_state_unchanged (uid key start stop endR : Nat)
    (sign : Nat → Nat) (s : mdJournal) :
    (mdJournal.getHead uid key s).2 = s ∧
    (mdJournal.getRange uid key start stop s).2 = s ∧
    (mdJournal.getNextEntryToFlush uid key endR sign s).2 = s ∧
    (mdJournal.length s).2 = s ∧
    (mdJournal.endRevision s).2 = s ∧
    (mdJournal.getBranchID s).2 = s := by
  refine ⟨?_, ?_, ?_, rfl, rfl, rfl⟩
  · unfold mdJournal.getHead
    rcases mdJournal.checkGetParams uid key s with e | h <;> rfl
  · unfold mdJournal.getRange
    rcases mdJournal.checkGetParams uid key s with e | h
    · rfl
    · dsimp only
      rcases mdJournal.getRangeLoop uid key s.branchID s.store
          (mdIDJournal.getRange start stop s.j).1
          (mdIDJournal.getRange start stop s.j).2 with e | rmds <;> rfl
  · unfold mdJournal.getNextEntryToFlush
    rcases mdJournal.getEarliest uid key true s with e | ho
    · rfl
    · rcases ho with _ | rmd
      · rfl
      · dsimp only
        by_cases hr : rmd.brmd.revision ≥ endR
        · rw [if_pos hr]
        · rw [if_neg hr]

/-- C3 (as stated, counterexample): on a branched journal, a put of a
MERGED RMD whose branch ID is not null fails with the status/branch
mismatch error of source line 757, not with `MDJournalConflictError`. -/
theorem put_merged_nonnull_bid_no_conflict_error :
    exEmptyBranched.branchID ≠ NullBranchID ∧
    (mdJournal.put 0 0 (fun n => n) (fun n => n) true
        ⟨exRMD 2 3 0 MergeStatus.Merged, false⟩ exEmptyBranched).1 =
      .error .statusBidMismatch ∧
    JErr.statusBidMismatch ≠ JErr.conflict := by
  refine ⟨by decide, by decide, by decide⟩

/-- C3 (amended): on a journal whose in-memory branchID is not NULL_BID,
a put of an RMD with mergedStatus MERGED and null branch ID fails with
`MDJournalConflictError`, and the journal state is unchanged by the
failed call. -/
theorem put_merged_on_branched_journal_conflict (uid key : Nat)
    (sign enc : Nat → Nat) (shouldEmbed : Bool) (rmd0 : RootMetadata)
    (s : mdJournal) (head : Option ImmutableBareRootMetadata)
    (hj : s.branchID ≠ NullBranchID)
    (hm : rmd0.bareMd.mergedStatus = MergeStatus.Merged)
    (hb : rmd0.bareMd.bid = NullBranchID)
    (hhead : mdJournal.getLatest uid key true s = .ok head) :
    mdJournal.put uid key sign enc shouldEmbed rmd0 s =
      (.error .conflict, s) := by
  unfold mdJournal.put
  rw [hhead]
  dsimp only
  have hnorm : mdJournal.putNormalize head rmd0 s = .ok (rmd0, s.branchID) := by
    unfold mdJournal.putNormalize
    rw [hm]
    simp
  rw [hnorm]
  dsimp only
  rw [hm]
  rw [if_neg (by simp [hb]), if_pos (by exact ⟨rfl, hj⟩)]

/-- Witness for the amended C3 at a concrete branched journal. -/
theorem put_merged_on_branched_journal_conflict_witness :
    exEmptyBranched.branchID ≠ NullBranchID ∧
    mdJournal.put 0 0 (fun n => n) (fun n => n) true
        ⟨exRMD 2 0 0 MergeStatus.Merged, false⟩ exEmptyBranched =
      (.error .conflict, exEmptyBranched) :=
  ⟨by decide,
   put_merged_on_branched_journal_conflict 0 0 (fun n => n) (fun n => n)
     true ⟨exRMD 2 0 0 MergeStatus.Merged, false⟩ exEmptyBranched none
     (by decide) rfl rfl (by decide)⟩

/-- C4: for every put of an unmerged RMD with null branch ID on a
journal whose in-memory branchID is non-null (case Unmerged-1), the
normalization block of `put` rewrites the RMD before the
append-or-replace step: its branch ID becomes the journal branchID, and
its prevRoot becomes the head MdID when the log is non-empty, and the
in-memory lastMdID when the log is empty. -/
theorem put_unmerged1_normalization (uid key : Nat) (s : mdJournal)
    (head : Option ImmutableBareRootMetadata) (rmd0 : RootMetadata)
    (hm : rmd0.bareMd.mergedStatus = MergeStatus.Unmerged)
    (hb : rmd0.bareMd.bid = NullBranchID)
    (hj : s.branchID ≠ NullBranchID)
    (hhead : mdJournal.getLatest uid key true s = .ok head)
    (hnz : (s.j.all fun p => decide (p.2 ≠ 0)) = true) :
    ∃ rmd1,
      mdJournal.putNormalize head rmd0 s = .ok (rmd1, s.branchID) ∧
      rmd1.bareMd.bid = s.branchID ∧
      rmd1.bareMd.revision = rmd0.bareMd.revision ∧
      (s.j ≠ [] → ∃ h0, head = some h0 ∧ rmd1.bareMd.prevRoot = h0.mdID) ∧
      (s.j = [] → rmd1.bareMd.prevRoot = s.lastMdID) := by
  rcases head with _ | h0
  · refine ⟨mdJournal.setPrevRoot (mdJournal.setBranchID rmd0 s.branchID)
      s.lastMdID, ?_, rfl, rfl, ?_, fun _ => rfl⟩
    · unfold mdJournal.putNormalize
      rw [hm]
      simp [hb, hj]
    · intro hne
      exact absurd (getLatest_ok_none hhead) (latest_ne_zero hnz hne)
  · refine ⟨mdJournal.setPrevRoot (mdJournal.setBranchID rmd0 s.branchID)
      h0.mdID, ?_, rfl, rfl, fun _ => ⟨h0, rfl, rfl⟩, ?_⟩
    · unfold mdJournal.putNormalize
      rw [hm]
      simp [hb, hj]
    · intro hnil
      have h2 := @getLatest_nil uid key true s hnil
      rw [hhead] at h2
      exact absurd h2 (by simp)

/-- A concrete unmerged RMD with null branch ID for the C4 witness. -/
def exC4rmd : RootMetadata := ⟨exRMD 6 0 0 MergeStatus.Unmerged, false⟩

/-- The head of `exBranched`. -/
def exC4head : Option ImmutableBareRootMetadata :=
  some ⟨exRMDBranch, makeMdID exRMDBranch⟩

/-- Witness for C4 at a concrete branched journal with one entry. -/
theorem put_unmerged1_normalization_witness :
    exBranched.branchID ≠ NullBranchID ∧
    (∃ rmd1,
      mdJournal.putNormalize exC4head exC4rmd exBranched =
        .ok (rmd1, exBranched.branchID) ∧
      rmd1.bareMd.bid = exBranched.branchID ∧
      rmd1.bareMd.revision = exC4rmd.bareMd.revision ∧
      (exBranched.j ≠ [] →
        ∃ h0, exC4head = some h0 ∧ rmd1.bareMd.prevRoot = h0.mdID) ∧
      (exBranched.j = [] →
        rmd1.bareMd.prevRoot = exBranched.lastMdID)) :=
  ⟨by decide,
   put_unmerged1_normalization 0 0 exBranched exC4head exC4rmd rfl rfl
     (by decide) (by decide) (by decide)⟩

/-- C1: for every `put` accepted without error returning `id`: when the
head existed and the revision of the RMD is strictly greater than the
head revision, or the journal was empty (head missing), the latest log
entry afterwards is `(rmd.revision, id)` and the log grew by exactly
one entry; when the revision equals the head revision, the latest entry
MdID afterwards is `id` and the log length is unchanged. -/
theorem put_append_or_replace (uid key : Nat) (sign enc : Nat → Nat)
    (shouldEmbed : Bool) (rmd0 : RootMetadata) (s s' : mdJournal)
    (id : Nat) (head : Option ImmutableBareRootMetadata)
    (hhead : mdJournal.getLatest uid key true s = .ok head)
    (hput : mdJournal.put uid key sign enc shouldEmbed rmd0 s =
      (.ok id, s')) :
    ((head = none ∨
        ∃ h, head = some h ∧ h.brmd.revision < rmd0.bareMd.revision) →
      s'.j.getLast? = some (rmd0.bareMd.revision, id) ∧
      s'.j.length = s.j.length + 1) ∧
    (∀ h, head = some h → h.brmd.revision = rmd0.bareMd.revision →
      s'.j.getLast?.map Prod.snd = some id ∧
      s'.j.length = s.j.length) := by
  unfold mdJournal.put at hput
  rw [hhead] at hput
  dsimp only at hput
  rcases hn : mdJournal.putNormalize head rmd0 s with e | p <;>
    rw [hn] at hput
  · simp at hput
  · obtain ⟨rmd1, bid⟩ := p
    dsimp only at hput
    obtain ⟨hrev1, -⟩ := putNormalize_preserves hn
    by_cases h1 : ¬ ((rmd0.bareMd.mergedStatus = MergeStatus.Merged) ↔
        (rmd1.bareMd.bid = NullBranchID))
    · rw [if_pos h1] at hput; simp at hput
    · rw [if_neg h1] at hput
      by_cases h2 : rmd0.bareMd.mergedStatus = MergeStatus.Merged ∧
          bid ≠ NullBranchID
      · rw [if_pos h2] at hput; simp at hput
      · rw [if_neg h2] at hput
        by_cases h3 : rmd1.bareMd.bid ≠ bid
        · rw [if_pos h3] at hput; simp at hput
        · rw [if_neg h3] at hput
          rcases hhc : mdJournal.headConsistencyCheck uid head rmd1.bareMd
            with e | u <;> rw [hhc] at hput
          · simp at hput
          · cases u
            dsimp only at hput
            by_cases h4 : rmd1.changesBlockPtrZero ∧ ¬ shouldEmbed
            · rw [if_pos h4] at hput; simp at hput
            · rw [if_neg h4] at hput
              rcases hpm : mdJournal.putMD uid key bid
                  (mdJournal.encryptMDPrivateData enc rmd1) s.store
                with e | pr <;> rw [hpm] at hput
              · simp at hput
              · obtain ⟨id0, store'⟩ := pr
                dsimp only at hput
                rcases head with _ | h0
                · rcases hap : mdIDJournal.append
                      (mdJournal.encryptMDPrivateData enc rmd1).revision
                      id0 s.j with e | log' <;> rw [hap] at hput
                  · simp at hput
                  · rw [Prod.mk.injEq] at hput
                    obtain ⟨hid, hs⟩ := hput
                    injection hid with hid'
                    subst hid'
                    subst hs
                    have hlog := append_ok hap
                    constructor
                    · intro _
                      constructor
                      · show log'.getLast? = some (rmd0.bareMd.revision, id0)
                        rw [hlog]
                        have : (mdJournal.encryptMDPrivateData enc
                            rmd1).revision = rmd0.bareMd.revision := hrev1
                        rw [List.getLast?_concat, this]
                      · show log'.length = s.j.length + 1
                        rw [hlog]
                        simp
                    · intro h heq
                      exact absurd heq (by simp)
                · dsimp only at hput
                  by_cases h5 : rmd1.bareMd.revision = h0.brmd.revision
                  · rw [if_pos h5] at hput
                    rcases hrh : mdIDJournal.replaceHead id0 s.j
                      with e | log' <;> rw [hrh] at hput
                    · simp at hput
                    · rw [Prod.mk.injEq] at hput
                      obtain ⟨hid, hs⟩ := hput
                      injection hid with hid'
                      subst hid'
                      subst hs
                      obtain ⟨lr, li, hlast, hlog⟩ := replaceHead_ok hrh
                      have hne : s.j ≠ [] := by
                        intro hnil
                        rw [hnil] at hlast
                        simp at hlast
                      constructor
                      · rintro (hc | ⟨h, hc, hlt⟩)
                        · exact absurd hc (by simp)
                        · injection hc with hc'
                          subst hc'
                          rw [h5] at hrev1
                          omega
                      · intro h heq _
                        injection heq with heq'
                        subst heq'
                        constructor
                        · show (log'.getLast?.map Prod.snd) = some id0
                          rw [hlog, List.getLast?_concat]
                          rfl
                        · show log'.length = s.j.length
                          rw [hlog]
                          have hpos : 0 < s.j.length :=
                            List.length_pos.mpr hne
                          simp [List.length_dropLast]
                          omega
                  · rw [if_neg h5] at hput
                    rcases hap : mdIDJournal.append
                        (mdJournal.encryptMDPrivateData enc rmd1).revision
                        id0 s.j with e | log' <;> rw [hap] at hput
                    · simp at hput
                    · rw [Prod.mk.injEq] at hput
                      obtain ⟨hid, hs⟩ := hput
                      injection hid with hid'
                      subst hid'
                      subst hs
                      have hlog := append_ok hap
                      constructor
                      · intro _
                        constructor
                        · show log'.getLast? = some (rmd0.bareMd.revision, id0)
                          rw [hlog]
                          have : (mdJournal.encryptMDPrivateData enc
                              rmd1).revision = rmd0.bareMd.revision := hrev1
                          rw [List.getLast?_concat, this]
                        · show log'.length = s.j.length + 1
                          rw [hlog]
                          simp
                      · intro h heq hrev
                        injection heq with heq'
                        subst heq'
                        rw [hrev] at h5
                        exact absurd hrev1 h5

theorem removeEarliest_ok {log log2 : List (Nat × Nat)} {b : Bool}
    (h : mdIDJournal.removeEarliest log = .ok (log2, b)) :
    log ≠ [] ∧ log2 = log.tail ∧ b = log2.isEmpty := by
  unfold mdIDJournal.removeEarliest at h
  rcases log with _ | ⟨p, t⟩
  · simp at h
  · simp only [Except.ok.injEq, Prod.mk.injEq] at h
    refine ⟨by simp, h.1.symm, ?_⟩
    rw [← h.1, ← h.2]

theorem getHead_pair (uid key : Nat) (s : mdJournal) :
    mdJournal.getHead uid key s = ((mdJournal.getHead uid key s).1, s) := by
  unfold mdJournal.getHead
  rcases mdJournal.checkGetParams uid key s with e | h <;> rfl

theorem getHead_nil {uid key : Nat} {s : mdJournal} (h : s.j = []) :
    mdJournal.getHead uid key s = (.ok none, s) := by
  unfold mdJournal.getHead mdJournal.checkGetParams
  rw [@getLatest_nil uid key true s h]

theorem checkGetParams_ok_none {uid key : Nat} {s : mdJournal}
    (h : mdJournal.checkGetParams uid key s = .ok none) :
    mdJournal.getLatest uid key true s = .ok none := by
  unfold mdJournal.checkGetParams at h
  rcases hg : mdJournal.getLatest uid key true s with e | ho <;>
    rw [hg] at h
  · simp at h
  · rcases ho with _ | h0
    · rfl
    · dsimp only at h
      split_ifs at h
      simp at h

theorem getHead_fst_ok_none {uid key : Nat} {s : mdJournal}
    (h : (mdJournal.getHead uid key s).1 = .ok none) :
    mdJournal.getLatest uid key true s = .ok none := by
  apply checkGetParams_ok_none
  unfold mdJournal.getHead at h
  rcases hc : mdJournal.checkGetParams uid key s with e | ho <;>
    rw [hc] at h <;> simp at h
  rw [h]

/-- C7: on a non-empty journal, `removeFlushedEntry(mdID, rmds)`
succeeds only when `mdID` is the earliest MdID and the signed RMD is
codec-equal to the stored earliest RMD; on success it removes the
earliest ordinal entry, shrinking the log by exactly one entry, and
when the log thereby becomes empty it records `lastMdID = mdID`. -/
theorem removeFlushedEntry_spec (uid key mdID : Nat)
    (rmds : RootMetadataSigned) (s s' : mdJournal)
    (e0 : ImmutableBareRootMetadata)
    (hearliest : mdJournal.getEarliest uid key true s = .ok (some e0))
    (hrm : mdJournal.removeFlushedEntry uid key mdID rmds s = .ok s') :
    mdID = e0.mdID ∧ rmds.md = e0.brmd ∧
    s'.j = s.j.tail ∧ s.j.length = s'.j.length + 1 ∧
    (s'.j = [] → s'.lastMdID = mdID) := by
  unfold mdJournal.removeFlushedEntry at hrm
  rw [hearliest] at hrm
  dsimp only at hrm
  by_cases h1 : mdID ≠ e0.mdID
  · rw [if_pos h1] at hrm; simp at hrm
  · rw [if_neg h1] at hrm
    by_cases h2 : ¬ (e0.brmd = rmds.md)
    · rw [if_pos h2] at hrm; simp at hrm
    · rw [if_neg h2] at hrm
      rcases hre : mdIDJournal.removeEarliest s.j with e | pr <;>
        rw [hre] at hrm
      · simp at hrm
      · obtain ⟨log', empty⟩ := pr
        dsimp only at hrm
        injection hrm with hs
        obtain ⟨hne, htail, hemp⟩ := removeEarliest_ok hre
        subst hs
        refine ⟨not_not.mp h1, (not_not.mp h2).symm, htail, ?_, ?_⟩
        · show s.j.length = log'.length + 1
          rw [htail]
          rcases hj : s.j with _ | ⟨p, t⟩
          · exact absurd hj hne
          · rfl
        · intro hnil
          have hnil2 : log' = [] := hnil
          show (if empty then mdID else s.lastMdID) = mdID
          rw [hemp, hnil2]
          rfl

/-- The signed RMD matching the earliest entry of `exBranched`. -/
def exC7rmds : RootMetadataSigned := ⟨exRMDBranch, 0⟩

/-- The journal left after the C7 witness flush. -/
def exC7result : mdJournal := ⟨[], [], 7, makeMdID exRMDBranch⟩

/-- Witness for C7 at the one-entry branched journal. -/
theorem removeFlushedEntry_spec_witness :
    mdJournal.getEarliest 0 0 true exBranched =
      .ok (some ⟨exRMDBranch, makeMdID exRMDBranch⟩) ∧
    mdJournal.removeFlushedEntry 0 0 (makeMdID exRMDBranch) exC7rmds
      exBranched = .ok exC7result ∧
    makeMdID exRMDBranch = makeMdID exRMDBranch ∧
    exC7rmds.md = exRMDBranch ∧
    exC7result.j = exBranched.j.tail ∧
    exBranched.j.length = exC7result.j.length + 1 ∧
    (exC7result.j = [] → exC7result.lastMdID = makeMdID exRMDBranch) := by
  refine ⟨by decide, by decide, ?_⟩
  have h := removeFlushedEntry_spec 0 0 (makeMdID exRMDBranch) exC7rmds
    exBranched exC7result ⟨exRMDBranch, makeMdID exRMDBranch⟩ (by decide)
    (by decide)
  exact h

/-- C8: `clear(bid)` fails with the invalid-argument error when
`bid == NULL_BID`; it is a no-op when `bid` differs from the current
branch or the journal is empty; otherwise it resets branchID to
NULL_BID, empties the ordinal log, and leaves lastMdID untouched. -/
theorem clear_spec (uid key bid : Nat) (truncOK : Bool) (s : mdJournal)
    (ho : Option ImmutableBareRootMetadata)
    (hgh : (mdJournal.getHead uid key s).1 = .ok ho)
    (hWF : ∀ h0, ho = some h0 → h0.brmd.bid = s.branchID)
    (hnz : (s.j.all fun p => decide (p.2 ≠ 0)) = true) :
    (bid = NullBranchID →
      mdJournal.clear uid key bid truncOK s = (.error .clearNullBid, s)) ∧
    (bid ≠ NullBranchID → (s.branchID ≠ bid ∨ s.j = []) →
      mdJournal.clear uid key bid truncOK s = (.ok (), s)) ∧
    (bid ≠ NullBranchID → s.branchID = bid → s.j ≠ [] → truncOK = true →
      (mdJournal.clear uid key bid truncOK s).1 = .ok () ∧
      (mdJournal.clear uid key bid truncOK s).2.branchID = NullBranchID ∧
      (mdJournal.clear uid key bid truncOK s).2.j = [] ∧
      (mdJournal.clear uid key bid truncOK s).2.lastMdID = s.lastMdID) := by
  have hpair : mdJournal.getHead uid key s =
      ((mdJournal.getHead uid key s).1, s) := getHead_pair uid key s
  rw [hgh] at hpair
  refine ⟨?_, ?_, ?_⟩
  · intro hbid
    unfold mdJournal.clear
    rw [if_pos hbid]
  · intro hbid hcase
    unfold mdJournal.clear
    rw [if_neg hbid, hpair]
    rcases ho with _ | h0
    · rfl
    · dsimp only
      rcases hcase with hbr | hnil
      · have hcond : h0.brmd.bid ≠ bid := by
          rw [hWF h0 rfl]
          exact hbr
        rw [if_pos hcond]
      · exfalso
        have h2 := @getHead_nil uid key s hnil
        rw [getHead_pair uid key s, hgh] at h2
        rw [Prod.mk.injEq] at h2
        have h3 := h2.1
        simp at h3
  · intro hbid hbr hne htr
    rcases ho with _ | h0
    · exfalso
      have h4 := getHead_fst_ok_none hgh
      exact absurd (getLatest_ok_none h4) (latest_ne_zero hnz hne)
    · have hb0 : h0.brmd.bid = bid := by rw [hWF h0 rfl, hbr]
      unfold mdJournal.clear
      rw [if_neg hbid, hpair]
      dsimp only
      rw [if_neg (not_not_intro hb0),
        if_neg (by rw [htr]; exact not_not_intro rfl)]
      exact ⟨rfl, rfl, rfl, rfl⟩

/-- Witness for C8 at the one-entry branched journal, matching branch. -/
theorem clear_spec_witness :
    (mdJournal.clear 0 0 7 true exBranched).1 = .ok () ∧
    (mdJournal.clear 0 0 7 true exBranched).2.branchID = NullBranchID ∧
    (mdJournal.clear 0 0 7 true exBranched).2.j = [] ∧
    (mdJournal.clear 0 0 7 true exBranched).2.lastMdID =
      exBranched.lastMdID :=
  (clear_spec 0 0 7 true exBranched
    (some ⟨exRMDBranch, makeMdID exRMDBranch⟩) (by decide)
    (fun h0 hh => by cases hh; decide) (by decide)).2.2
    (by decide) (by decide) (by decide) rfl

/-! ## Lemmas about consecutive revisions and range reads -/

theorem consecFrom_bounds :
    ∀ (log : List (Nat × Nat)) (r : Nat), consecFrom r log = true →
      ∀ p ∈ log, r ≤ p.1 ∧ p.1 < r + log.length := by
  intro log
  induction log with
  | nil =>
    intro r _ p hp
    simp at hp
  | cons q t ih =>
    obtain ⟨rv, idv⟩ := q
    intro r hc p hp
    rw [consecFrom, Bool.and_eq_true, decide_eq_true_eq] at hc
    obtain ⟨hq, ht⟩ := hc
    rcases List.mem_cons.mp hp with hp | hp
    · subst hp
      simp [hq]
    · have := ih (r + 1) ht p hp
      constructor
      · omega
      · simp only [List.length_cons]
        omega

theorem consecFrom_last :
    ∀ (log : List (Nat × Nat)) (r : Nat), consecFrom r log = true →
      log ≠ [] →
      mdIDJournal.readLatestRevision log = r + log.length - 1 := by
  intro log
  induction log with
  | nil =>
    intro r _ hne
    exact absurd rfl hne
  | cons q t ih =>
    obtain ⟨rv, idv⟩ := q
    intro r hc _
    rw [consecFrom, Bool.and_eq_true, decide_eq_true_eq] at hc
    obtain ⟨hq, ht⟩ := hc
    rcases t with _ | ⟨q2, t2⟩
    · subst hq
      simp [mdIDJournal.readLatestRevision]
    · have h2 := ih (r + 1) ht (by simp)
      have h3 : mdIDJournal.readLatestRevision ((rv, idv) :: q2 :: t2) =
          mdIDJournal.readLatestRevision (q2 :: t2) := by
        unfold mdIDJournal.readLatestRevision
        rw [List.getLast?_cons_cons]
      rw [h3, h2]
      simp only [List.length_cons]
      omega

/-- Over a gap-free log, `getRange` between the stored endpoints
returns exactly the MdIDs of all entries. -/
theorem getRange_full {log : List (Nat × Nat)}
    (h : logConsec log = true) :
    (mdIDJournal.getRange (mdIDJournal.readEarliestRevision log)
      (mdIDJournal.readLatestRevision log) log).2 = log.map Prod.snd := by
  rcases hl : log with _ | ⟨q, t⟩
  · rfl
  · obtain ⟨rv, idv⟩ := q
    rw [hl] at h
    unfold logConsec at h
    have hfilter : ((rv, idv) :: t).filter
        (fun p => mdIDJournal.readEarliestRevision ((rv, idv) :: t) ≤ p.1 &&
          p.1 ≤ mdIDJournal.readLatestRevision ((rv, idv) :: t)) =
        (rv, idv) :: t := by
      rw [List.filter_eq_self]
      intro p hp
      have hbound := consecFrom_bounds ((rv, idv) :: t) rv h p hp
      have hlast := consecFrom_last ((rv, idv) :: t) rv h (by simp)
      rw [Bool.and_eq_true, decide_eq_true_eq, decide_eq_true_eq]
      have hearly : mdIDJournal.readEarliestRevision ((rv, idv) :: t) = rv := by
        simp [mdIDJournal.readEarliestRevision]
      rw [hearly, hlast]
      simp only [List.length_cons] at hbound ⊢
      omega
    unfold mdIDJournal.getRange
    rw [hfilter]

/-- `entryWF` depends only on the lookup of the entry MdID. -/
theorem entryWF_congr {uid key branchID : Nat} {st st2 : Store}
    {p : Nat × Nat}
    (hl : storeLookup p.2 st2 = storeLookup p.2 st)
    (h : entryWF uid key branchID st p = true) :
    entryWF uid key branchID st2 p = true := by
  unfold entryWF at h ⊢
  rw [hl]
  exact h

/-- `chainFrom` depends only on the lookups of the listed MdIDs. -/
theorem chainFrom_congr {st st2 : Store} :
    ∀ (l : List (Nat × Nat)) (prev : Option Nat),
      (∀ p ∈ l, storeLookup p.2 st2 = storeLookup p.2 st) →
      chainFrom st prev l = true → chainFrom st2 prev l = true := by
  intro l
  induction l with
  | nil =>
    intro prev _ _
    cases prev <;> rfl
  | cons q t ih =>
    obtain ⟨rv, idv⟩ := q
    intro prev hl h
    have htail : ∀ p ∈ t, storeLookup p.2 st2 = storeLookup p.2 st :=
      fun p hp => hl p (List.mem_cons_of_mem _ hp)
    rcases prev with _ | pv
    · rw [chainFrom] at h ⊢
      exact ih (some idv) htail h
    · rw [chainFrom, Bool.and_eq_true] at h ⊢
      obtain ⟨h1, h2⟩ := h
      refine ⟨?_, ih (some idv) htail h2⟩
      have hq := hl (rv, idv) (List.mem_cons_self _ _)
      dsimp only at hq ⊢
      rw [hq]
      exact h1

theorem entryWF_elim {uid key branchID : Nat} {store : Store}
    {p : Nat × Nat} (h : entryWF uid key branchID store p = true) :
    ∃ m, storeLookup p.2 store = some m ∧ makeMdID m = p.2 ∧
      m.lastModUID = uid ∧ m.lastModKey = key ∧ m.validSigned = true ∧
      m.bid = branchID ∧ m.revision = p.1 := by
  unfold entryWF at h
  rcases hl : storeLookup p.2 store with _ | m <;> rw [hl] at h
  · simp at h
  · simp only [Bool.and_eq_true, decide_eq_true_eq] at h
    obtain ⟨⟨⟨⟨⟨h1, h2⟩, h3⟩, h4⟩, h5⟩, h6⟩ := h
    exact ⟨m, rfl, h1, h2, h3, h4, h5, h6⟩

theorem rewriteEntry_fields (newBID : Nat) (sign : Nat → Nat)
    (notFirst : Bool) (prevID : Nat) (m : BareRootMetadata) :
    (mdJournal.rewriteEntry newBID sign notFirst prevID m).revision =
      m.revision ∧
    (mdJournal.rewriteEntry newBID sign notFirst prevID m).bid = newBID ∧
    (mdJournal.rewriteEntry newBID sign notFirst prevID m).mergedStatus =
      MergeStatus.Unmerged ∧
    (mdJournal.rewriteEntry newBID sign notFirst prevID m).validSigned =
      m.validSigned ∧
    (mdJournal.rewriteEntry newBID sign notFirst prevID m).lastModUID =
      m.lastModUID ∧
    (mdJournal.rewriteEntry newBID sign notFirst prevID m).lastModKey =
      m.lastModKey ∧
    (notFirst = true →
      (mdJournal.rewriteEntry newBID sign notFirst prevID m).prevRoot =
        prevID) := by
  cases notFirst <;> simp [mdJournal.rewriteEntry]

/-- The rewriting loop of `convertToBranch` rewrites well-formed trunk
entries with consecutive revisions into fresh entries on the new
branch: the scratch log extends `tempLog` by one rewritten entry per
input entry, revisions are preserved pointwise, the rewritten entries
are stored unmerged on the new branch under their new hashes, and the
`prevRoot` chain threads through the new MdIDs. -/
theorem convertLoop_spec (uid key newBID : Nat) (sign : Nat → Nat)
    (hbid : newBID ≠ 0) :
    ∀ (entries : List (Nat × Nat)) (r0 : Nat) (store : Store)
      (tempLog : List (Nat × Nat)) (prevID : Nat) (notFirst : Bool),
      consecFrom r0 entries = true →
      (∀ p ∈ entries, entryWF uid key 0 store p = true) →
      (∀ q ∈ store, makeMdID q.2 = q.1) →
      (∀ q ∈ store, q.2.bid = 0 ∨ q.2.revision < r0) →
      (tempLog = [] ∨ ∃ lp, tempLog.getLast? = some lp ∧ lp.1 + 1 = r0) →
      ∃ storeF newPart,
        mdJournal.convertLoop uid key 0 newBID sign
          (entries.map Prod.snd) notFirst prevID tempLog store =
            .ok (storeF, tempLog ++ newPart) ∧
        newPart.map Prod.fst = entries.map Prod.fst ∧
        (∀ i mi, storeLookup i store = some mi →
          storeLookup i storeF = some mi) ∧
        (∀ p ∈ newPart, ∃ mi, storeLookup p.2 storeF = some mi ∧
          makeMdID mi = p.2 ∧ mi.bid = newBID ∧
          mi.mergedStatus = MergeStatus.Unmerged ∧ mi.revision = p.1) ∧
        chainFrom storeF (if notFirst then some prevID else none)
          newPart = true := by
  intro entries
  induction entries with
  | nil =>
    intro r0 store tempLog prevID notFirst _ _ _ _ _
    refine ⟨store, [], ?_, rfl, fun i mi hmi => hmi, by simp, ?_⟩
    · simp [mdJournal.convertLoop]
    · cases notFirst <;> rfl
  | cons p0 rest ih =>
    obtain ⟨rv, idv⟩ := p0
    intro r0 store tempLog prevID notFirst hconsec hWF hCA hBR htl
    rw [consecFrom, Bool.and_eq_true, decide_eq_true_eq] at hconsec
    obtain ⟨hrv, hcrest⟩ := hconsec
    subst hrv
    obtain ⟨m, hlk, hhash, hmu, hmk, hmv, hmb, hmr⟩ :=
      entryWF_elim (hWF (rv, idv) (List.mem_cons_self _ _))
    dsimp only at hmr
    have hget : mdJournal.getMD uid key 0 true idv store = .ok m :=
      getMD_ok_of hlk hhash hmu hmk hmv hmb
    obtain ⟨hfrev, hfbid, hfst, hfval, hfuid, hfkey, hfprev⟩ :=
      rewriteEntry_fields newBID sign notFirst prevID m
    -- the rewritten entry and its new MdID
    have hfresh : storeLookup
        (makeMdID (mdJournal.rewriteEntry newBID sign notFirst prevID m))
        store = none := by
      rcases hq : storeLookup
          (makeMdID (mdJournal.rewriteEntry newBID sign notFirst prevID m))
          store with _ | mq
      · rfl
      · exfalso
        have hmem := storeLookup_mem hq
        have hqca := hCA _ hmem
        have hinj := makeMdID_inj_rev_bid (hqca.trans rfl)
        have hqbid : mq.bid = newBID := by rw [hinj.2, hfbid]
        have hqrev : mq.revision = rv := by rw [hinj.1, hfrev, hmr]
        rcases hBR _ hmem with hc | hc
        · rw [hqbid] at hc
          exact hbid hc
        · rw [hqrev] at hc
          omega
    have hput : mdJournal.putMD uid key 0
        (mdJournal.rewriteEntry newBID sign notFirst prevID m) store =
        .ok (makeMdID (mdJournal.rewriteEntry newBID sign notFirst prevID m),
          (makeMdID (mdJournal.rewriteEntry newBID sign notFirst prevID m),
            mdJournal.rewriteEntry newBID sign notFirst prevID m) ::
            store) :=
      putMD_fresh (by rw [hfval, hmv]) (by rw [hfuid, hmu])
        (by rw [hfkey, hmk]) hfresh
    have happ : mdIDJournal.append
        (mdJournal.rewriteEntry newBID sign notFirst prevID m).revision
        (makeMdID (mdJournal.rewriteEntry newBID sign notFirst prevID m))
        tempLog =
        .ok (tempLog ++
          [(rv,
            makeMdID (mdJournal.rewriteEntry newBID sign notFirst
              prevID m))]) := by
      rw [hfrev, hmr]
      unfold mdIDJournal.append
      rcases htl with htl | ⟨lp, hlp, hlpr⟩
      · rw [htl]
        rfl
      · rw [hlp]
        obtain ⟨lpr, lpi⟩ := lp
        dsimp only
        dsimp only at hlpr
        rw [if_pos (by omega)]
    -- freshness of the new id against the remaining old entries
    have hne_old : ∀ p ∈ rest, p.2 ≠
        makeMdID (mdJournal.rewriteEntry newBID sign notFirst prevID m) := by
      intro p hp heq
      obtain ⟨mp, hplk, hphash, _, _, _, hpbid, _⟩ :=
        entryWF_elim (hWF p (List.mem_cons_of_mem _ hp))
      have hinj := makeMdID_inj_rev_bid (hphash.trans heq)
      rw [hfbid] at hinj
      rw [hinj.2] at hpbid
      exact hbid hpbid
    -- apply the induction hypothesis
    obtain ⟨storeF, tailPart, heq, hmap, hpres, hnewp, hchain⟩ :=
      ih (rv + 1)
        ((makeMdID (mdJournal.rewriteEntry newBID sign notFirst prevID m),
          mdJournal.rewriteEntry newBID sign notFirst prevID m) :: store)
        (tempLog ++
          [(rv,
            makeMdID (mdJournal.rewriteEntry newBID sign notFirst
              prevID m))])
        (makeMdID (mdJournal.rewriteEntry newBID sign notFirst prevID m))
        true hcrest
        (by
          intro p hp
          refine entryWF_congr ?_ (hWF p (List.mem_cons_of_mem _ hp))
          exact storeLookup_cons_ne (hne_old p hp))
        (by
          intro q hq
          rcases List.mem_cons.mp hq with hq | hq
          · rw [hq]
          · exact hCA q hq)
        (by
          intro q hq
          rcases List.mem_cons.mp hq with hq | hq
          · right
            rw [hq]
            dsimp only
            rw [hfrev, hmr]
            omega
          · rcases hBR q hq with hc | hc
            · exact Or.inl hc
            · exact Or.inr (by omega))
        (Or.inr ⟨(rv,
            makeMdID (mdJournal.rewriteEntry newBID sign notFirst
              prevID m)),
          List.getLast?_concat _, rfl⟩)
    refine ⟨storeF,
      (rv, makeMdID (mdJournal.rewriteEntry newBID sign notFirst
        prevID m)) :: tailPart, ?_, ?_, ?_, ?_, ?_⟩
    · -- the loop equation
      show mdJournal.convertLoop uid key 0 newBID sign
          (((rv, idv) :: rest).map Prod.snd) notFirst prevID tempLog
          store = _
      rw [List.map_cons]
      rw [mdJournal.convertLoop, hget]
      dsimp only
      rw [hput]
      dsimp only
      rw [happ]
      dsimp only
      rw [heq]
      rw [List.append_assoc]
      rfl
    · rw [List.map_cons, List.map_cons, hmap]
    · intro i mi hmi
      apply hpres
      have hine : i ≠
          makeMdID (mdJournal.rewriteEntry newBID sign notFirst prevID m) := by
        intro hc
        rw [hc, hfresh] at hmi
        exact Option.noConfusion hmi
      rw [storeLookup_cons_ne hine]
      exact hmi
    · intro p hp
      rcases List.mem_cons.mp hp with hp | hp
      · subst hp
        refine ⟨mdJournal.rewriteEntry newBID sign notFirst prevID m,
          ?_, rfl, hfbid, hfst, by rw [hfrev, hmr]⟩
        apply hpres
        exact storeLookup_cons_self
      · exact hnewp p hp
    · -- the chain property
      have hlkF : storeLookup
          (makeMdID (mdJournal.rewriteEntry newBID sign notFirst prevID m))
          storeF =
          some (mdJournal.rewriteEntry newBID sign notFirst prevID m) :=
        hpres _ _ storeLookup_cons_self
      cases notFirst
      · rw [if_neg (by simp)]
        rw [chainFrom]
        rw [if_pos rfl] at hchain
        exact hchain
      · rw [if_pos rfl]
        rw [chainFrom, Bool.and_eq_true]
        constructor
        · dsimp only
          rw [hlkF]
          rw [decide_eq_true_eq]
          exact hfprev rfl
        · rw [if_pos rfl] at hchain
          exact hchain

/-- C5: on a non-empty trunk journal (branchID == NULL_BID) satisfying
the journal invariants, `convertToBranch` with a fresh non-null branch
ID succeeds and returns that ID; afterwards the in-memory branchID
equals it, every log entry is stored unmerged on the new branch, the
later of two consecutive entries points through `prevRoot` at the new
MdID of the earlier one, the revision sequence is unchanged pointwise,
and every new MdID differs from every old MdID. -/
theorem convertToBranch_spec (uid key newBID : Nat) (sign : Nat → Nat)
    (s : mdJournal)
    (h0 : s.branchID = NullBranchID)
    (hne : s.j ≠ [])
    (hbid : newBID ≠ NullBranchID)
    (hWF : logWF uid key s.branchID s.store s.j = true)
    (hcons : logConsec s.j = true)
    (hCA : storeCA s.store = true)
    (hSB : storeOnBranch s.branchID s.store = true) :
    ∃ s2, mdJournal.convertToBranch uid key newBID sign s =
        (.ok newBID, s2) ∧
      s2.branchID = newBID ∧ newBID ≠ NullBranchID ∧
      s2.j.map Prod.fst = s.j.map Prod.fst ∧
      logOnBranch newBID MergeStatus.Unmerged s2.store s2.j = true ∧
      chainFrom s2.store none s2.j = true ∧
      (∀ nid ∈ s2.j.map Prod.snd, ∀ oid ∈ s.j.map Prod.snd,
        nid ≠ oid) := by
  have hWF' : ∀ p ∈ s.j, entryWF uid key 0 s.store p = true := by
    intro p hp
    have h := List.all_eq_true.mp hWF p hp
    rwa [h0] at h
  have hCA' : ∀ q ∈ s.store, makeMdID q.2 = q.1 := by
    intro q hq
    exact of_decide_eq_true (List.all_eq_true.mp hCA q hq)
  have hBR' : ∀ q ∈ s.store, q.2.bid = 0 ∨ q.2.revision <
      mdIDJournal.readEarliestRevision s.j := by
    intro q hq
    left
    have h := of_decide_eq_true (List.all_eq_true.mp hSB q hq)
    rwa [h0] at h
  have hc0 : consecFrom (mdIDJournal.readEarliestRevision s.j) s.j
      = true := by
    unfold logConsec at hcons
    rcases hl : s.j with _ | ⟨q, t⟩
    · exact absurd hl hne
    · obtain ⟨qr, qi⟩ := q
      rw [hl] at hcons
      have : mdIDJournal.readEarliestRevision ((qr, qi) :: t) = qr := by
        simp [mdIDJournal.readEarliestRevision]
      rw [this]
      exact hcons
  have hrange := @getRange_full s.j hcons
  obtain ⟨storeF, newPart, heq, hmap, hpres, hnewp, hchain⟩ :=
    convertLoop_spec uid key newBID sign hbid s.j
      (mdIDJournal.readEarliestRevision s.j) s.store [] 0 false hc0
      hWF' hCA' hBR' (Or.inl rfl)
  rw [List.nil_append] at heq
  -- no new MdID collides with an old MdID
  have hfreshNew : ∀ p ∈ newPart, ∀ oid ∈ s.j.map Prod.snd,
      p.2 ≠ oid := by
    intro p hp oid hoid heq2
    obtain ⟨mi, hlki, hashi, hbidi, _, _⟩ := hnewp p hp
    obtain ⟨e, he, heo⟩ := List.mem_map.mp hoid
    obtain ⟨me, _, hashe, _, _, _, hbide, _⟩ := entryWF_elim (hWF' e he)
    have hh : makeMdID me = makeMdID mi := by
      rw [hashe, heo, ← heq2, ← hashi]
    have hinj := makeMdID_inj_rev_bid hh
    rw [hbide, hbidi] at hinj
    exact hbid hinj.2.symm
  have hkeep : ∀ p ∈ newPart,
      storeLookup p.2 ((s.j.map Prod.snd).foldl
        (fun st id => storeRemove id st) storeF) =
      storeLookup p.2 storeF :=
    fun p hp => foldl_storeRemove_lookup (hfreshNew p hp)
  have hcall : mdJournal.convertToBranch uid key newBID sign s =
      (.ok newBID,
        ⟨(s.j.map Prod.snd).foldl (fun st id => storeRemove id st) storeF,
          newPart, newBID, s.lastMdID⟩) := by
    unfold mdJournal.convertToBranch
    rw [if_neg (not_not_intro h0)]
    dsimp only
    have h02 : s.branchID = 0 := h0
    rw [h02, hrange, heq]
  refine ⟨⟨(s.j.map Prod.snd).foldl (fun st id => storeRemove id st)
      storeF, newPart, newBID, s.lastMdID⟩,
    hcall, rfl, hbid, hmap, ?_, ?_, ?_⟩
  · -- every entry of the new log is stored unmerged on the new branch
    apply List.all_eq_true.mpr
    intro p hp
    obtain ⟨mi, hlki, _, hbidi, hsti, _⟩ := hnewp p hp
    show (match storeLookup p.2 ((s.j.map Prod.snd).foldl
        (fun st id => storeRemove id st) storeF) with
      | none => false
      | some m => decide (m.bid = newBID) &&
          decide (m.mergedStatus = MergeStatus.Unmerged)) = true
    rw [hkeep p hp, hlki]
    simp [hbidi, hsti]
  · -- the prevRoot chain over the new MdIDs
    exact chainFrom_congr newPart none hkeep hchain
  · -- the MdIDs change
    intro nid hnid oid hoid
    obtain ⟨p, hp, hpn⟩ := List.mem_map.mp hnid
    rw [← hpn]
    exact hfreshNew p hp oid hoid

/-- The second trunk RMD for the C5 witness, successor of
`exRMDMerged`. -/
def exRMDTrunk2 : BareRootMetadata :=
  exRMD 2 0 (makeMdID exRMDMerged) MergeStatus.Merged

/-- A concrete two-entry trunk journal satisfying the invariants. -/
def exTrunk2 : mdJournal :=
  ⟨[(makeMdID exRMDMerged, exRMDMerged),
    (makeMdID exRMDTrunk2, exRMDTrunk2)],
   [(1, makeMdID exRMDMerged), (2, makeMdID exRMDTrunk2)], 0, 0⟩

/-- Witness for C5 at a concrete two-entry trunk journal. -/
theorem convertToBranch_spec_witness :
    exTrunk2.branchID = NullBranchID ∧
    ∃ s2, mdJournal.convertToBranch 0 0 5 (fun n => n) exTrunk2 =
        (.ok 5, s2) ∧
      s2.branchID = 5 ∧ (5 : Nat) ≠ NullBranchID ∧
      s2.j.map Prod.fst = exTrunk2.j.map Prod.fst ∧
      logOnBranch 5 MergeStatus.Unmerged s2.store s2.j = true ∧
      chainFrom s2.store none s2.j = true ∧
      (∀ nid ∈ s2.j.map Prod.snd, ∀ oid ∈ exTrunk2.j.map Prod.snd,
        nid ≠ oid) :=
  ⟨rfl,
   convertToBranch_spec 0 0 5 (fun n => n) exTrunk2 rfl (by decide)
     (by decide) (by decide) (by decide) (by decide) (by decide)⟩

/-- The RootMetadata used by the C1 witness. -/
def exC1rmd : RootMetadata := ⟨exRMD 1 0 0 MergeStatus.Merged, false⟩

/-- The journal state after the C1 witness put. -/
def exC1result : mdJournal :=
  ⟨[(makeMdID exRMDMerged, exRMDMerged)], [(1, makeMdID exRMDMerged)], 0, 0⟩

/-- Witness for C1: a put on the empty journal appends the entry. -/
theorem put_append_or_replace_witness :
    mdJournal.getLatest 0 0 true exEmpty = .ok none ∧
    mdJournal.put 0 0 (fun n => n) (fun n => n) true exC1rmd exEmpty =
      (.ok (makeMdID exRMDMerged), exC1result) ∧
    exC1result.j.getLast? =
      some (exC1rmd.bareMd.revision, makeMdID exRMDMerged) ∧
    exC1result.j.length = exEmpty.j.length + 1 := by
  refine ⟨by decide, by decide, ?_, ?_⟩
  · exact ((put_append_or_replace 0 0 (fun n => n) (fun n => n) true
      exC1rmd exEmpty exC1result (makeMdID exRMDMerged) none (by decide)
      (by decide)).1 (Or.inl rfl)).1
  · exact ((put_append_or_replace 0 0 (fun n => n) (fun n => n) true
      exC1rmd exEmpty exC1result (makeMdID exRMDMerged) none (by decide)
      (by decide)).1 (Or.inl rfl)).2
